import Mathlib

/-
Verification of the comparable-matching repository: the Normalizer
(src/lib/normalize.ts), the Funda slug helpers (src/lib/funda/slug.ts),
the nearest-buurten lookup (src/lib/nearestBuurten.ts), and the
scoring/ranking/valuation core described by the design document.

Strings are modelled as lists of characters.  The Unicode-dependent
character operations of the JavaScript runtime (NFD decomposition and
case mapping) are modelled by explicit finite tables covering the ASCII
and Latin-1 repertoire the application works with; characters outside
this modelled repertoire are treated as fixed points, a restriction of
the model to that repertoire.
-/

/-- Association lookup on a character-keyed table (models JS map lookup). -/
def assq {α : Type} (c : Char) : List (Char × α) → Option α
  | [] => none
  | p :: rest => if c = p.1 then some p.2 else assq c rest

/-- Canonical decomposition table modelling `String.prototype.normalize('NFD')`
on the Latin-1 precomposed letters: each entry maps a precomposed character to
its base letter followed by its combining mark. -/
def decompTable : List (Char × List Char) :=
  [ ('À', ['A', '̀']), ('Á', ['A', '́']),
    ('Â', ['A', '̂']), ('Ã', ['A', '̃']),
    ('Ä', ['A', '̈']), ('Å', ['A', '̊']),
    ('Ç', ['C', '̧']),
    ('È', ['E', '̀']), ('É', ['E', '́']),
    ('Ê', ['E', '̂']), ('Ë', ['E', '̈']),
    ('Ì', ['I', '̀']), ('Í', ['I', '́']),
    ('Î', ['I', '̂']), ('Ï', ['I', '̈']),
    ('Ñ', ['N', '̃']),
    ('Ò', ['O', '̀']), ('Ó', ['O', '́']),
    ('Ô', ['O', '̂']), ('Õ', ['O', '̃']),
    ('Ö', ['O', '̈']),
    ('Ù', ['U', '̀']), ('Ú', ['U', '́']),
    ('Û', ['U', '̂']), ('Ü', ['U', '̈']),
    ('Ý', ['Y', '́']),
    ('à', ['a', '̀']), ('á', ['a', '́']),
    ('â', ['a', '̂']), ('ã', ['a', '̃']),
    ('ä', ['a', '̈']), ('å', ['a', '̊']),
    ('ç', ['c', '̧']),
    ('è', ['e', '̀']), ('é', ['e', '́']),
    ('ê', ['e', '̂']), ('ë', ['e', '̈']),
    ('ì', ['i', '̀']), ('í', ['i', '́']),
    ('î', ['i', '̂']), ('ï', ['i', '̈']),
    ('ñ', ['n', '̃']),
    ('ò', ['o', '̀']), ('ó', ['o', '́']),
    ('ô', ['o', '̂']), ('õ', ['o', '̃']),
    ('ö', ['o', '̈']),
    ('ù', ['u', '̀']), ('ú', ['u', '́']),
    ('û', ['u', '̂']), ('ü', ['u', '̈']),
    ('ý', ['y', '́']), ('ÿ', ['y', '̈']) ]

/-- Decomposition of a single character under the modelled NFD: table entry
when present, otherwise the character itself. -/
def decomp (c : Char) : List Char :=
  match assq c decompTable with
  | some l => l
  | none => [c]

/-- Model of `str.normalize('NFD')`: concatenated decomposition. -/
def nfd (l : List Char) : List Char := l.flatMap decomp

/-- The combining marks removed by the source regex `[̀-ͯ]`. -/
def isCombiningMark (c : Char) : Bool :=
  decide (0x300 ≤ c.toNat) && decide (c.toNat ≤ 0x36F)

/-- Case-mapping table modelling `String.prototype.toLowerCase` on the
ASCII and Latin-1 repertoire: the ASCII letters, the Latin-1 uppercase
letters with no canonical decomposition, and the Latin-1 precomposed
uppercase letters (whose lowercase forms decompose under NFD, which matters
in the slug pipeline where lowercasing runs before NFD). -/
def lowerTable : List (Char × Char) :=
  [ ('A', 'a'), ('B', 'b'), ('C', 'c'), ('D', 'd'), ('E', 'e'), ('F', 'f'),
    ('G', 'g'), ('H', 'h'), ('I', 'i'), ('J', 'j'), ('K', 'k'), ('L', 'l'),
    ('M', 'm'), ('N', 'n'), ('O', 'o'), ('P', 'p'), ('Q', 'q'), ('R', 'r'),
    ('S', 's'), ('T', 't'), ('U', 'u'), ('V', 'v'), ('W', 'w'), ('X', 'x'),
    ('Y', 'y'), ('Z', 'z'),
    ('Æ', 'æ'), ('Ð', 'ð'),
    ('Ø', 'ø'), ('Þ', 'þ'),
    ('À', 'à'), ('Á', 'á'), ('Â', 'â'), ('Ã', 'ã'), ('Ä', 'ä'), ('Å', 'å'),
    ('Ç', 'ç'),
    ('È', 'è'), ('É', 'é'), ('Ê', 'ê'), ('Ë', 'ë'),
    ('Ì', 'ì'), ('Í', 'í'), ('Î', 'î'), ('Ï', 'ï'),
    ('Ñ', 'ñ'),
    ('Ò', 'ò'), ('Ó', 'ó'), ('Ô', 'ô'), ('Õ', 'õ'), ('Ö', 'ö'),
    ('Ù', 'ù'), ('Ú', 'ú'), ('Û', 'û'), ('Ü', 'ü'),
    ('Ý', 'ý') ]

/-- Model of `toLowerCase` on one character. -/
def jsLower (c : Char) : Char :=
  match assq c lowerTable with
  | some d => d
  | none => c

/-- Code points matched by the JS whitespace class `\s`. -/
def wsCodes : List Nat :=
  [9, 10, 11, 12, 13, 32, 160, 5760,
   8192, 8193, 8194, 8195, 8196, 8197, 8198, 8199, 8200, 8201, 8202,
   8232, 8233, 8239, 8287, 12288, 65279]

/-- Whitespace test modelling the JS `\s` class and `trim`. -/
def isJsWs (c : Char) : Bool := wsCodes.contains c.toNat

/-- Model of `String.prototype.trim`: drop whitespace on both ends. -/
def trimWs (l : List Char) : List Char :=
  ((l.dropWhile isJsWs).reverse.dropWhile isJsWs).reverse

/-- Model of `.replace(/\s+/g, ' ')`: every maximal run of whitespace becomes
one space.  The flag records whether the previous character was whitespace. -/
def collapseWs : Bool → List Char → List Char
  | _, [] => []
  | prevWs, c :: rest =>
    if isJsWs c then
      if prevWs then collapseWs true rest
      else ' ' :: collapseWs true rest
    else c :: collapseWs false rest

/-- Model of `normalizeName` from src/lib/normalize.ts: the falsy guard on
empty input, then NFD, mark stripping, lowercasing, trim, and whitespace
collapse, in the order of the source pipeline. -/
def normalizeName (s : List Char) : List Char :=
  if s = [] then []
  else collapseWs false (trimWs (((nfd s).filter (fun c => !isCombiningMark c)).map jsLower))

/-- Model of the call pattern `normalizeName(x || '')`: an optional string,
with `none` standing for a JS `undefined` argument. -/
def normalizeNameOpt (s : Option (List Char)) : List Char :=
  normalizeName (s.getD [])

/-- Model of `makeStreetKey` from src/lib/normalize.ts: the normalized name,
the literal separator bar, then the normalized admin area. -/
def makeStreetKey (name adminArea : Option (List Char)) : List Char :=
  normalizeNameOpt name ++ '|' :: normalizeNameOpt adminArea

section NormalizeLemmas

/-- Characters the pipeline leaves alone: no decomposition, already
lowercase, not a stripped combining mark. -/
def charFixed (c : Char) : Prop :=
  decomp c = [c] ∧ jsLower c = c ∧ isCombiningMark c = false

theorem assq_eq_some_mem {α : Type} {c : Char} {v : α} :
    ∀ {l : List (Char × α)}, assq c l = some v → (c, v) ∈ l := by
  intro l
  induction l with
  | nil => intro h; simp [assq] at h
  | cons p rest ih =>
    intro h
    by_cases hc : c = p.1
    · simp [assq, hc] at h
      subst hc
      simp [← h]
    · simp [assq, hc] at h
      exact List.mem_cons_of_mem _ (ih h)

/-- Every character produced by a table decomposition has no decomposition of
its own, is not re-lowercased, and the base letters are not combining marks;
checked by evaluation over the finite tables. -/
theorem decompTable_values_ok :
    decompTable.all
      (fun p => p.2.all (fun c => (assq c decompTable).isNone)) = true := by
  decide

/-- Every canonical decomposition in the table is a base letter followed by
one combining mark (two characters); checked by evaluation. -/
theorem decompTable_pair_lengths :
    decompTable.all (fun p => decide (p.2.length = 2)) = true := by
  decide

/-- Every case-mapping entry whose key has no canonical decomposition maps to
a character that neither decomposes, nor is re-lowercased, nor is a combining
mark or whitespace; checked by evaluation.  Entries whose key decomposes
(the precomposed uppercase letters) are unconstrained: such keys never occur
in NFD output. -/
theorem lowerTable_values_ok :
    lowerTable.all
      (fun p => (assq p.1 decompTable).isSome ||
        ((assq p.2 decompTable).isNone && (assq p.2 lowerTable).isNone
          && !isCombiningMark p.2 && !isJsWs p.2)) = true := by
  decide

theorem decomp_of_assq_none {c : Char} (h : assq c decompTable = none) :
    decomp c = [c] := by
  simp [decomp, h]

theorem jsLower_of_assq_none {c : Char} (h : assq c lowerTable = none) :
    jsLower c = c := by
  simp [jsLower, h]

/-- Characters in the image of a decomposition do not decompose further. -/
theorem decomp_mem_fixed {d c : Char} (h : c ∈ decomp d) : decomp c = [c] := by
  unfold decomp at h
  cases hq : assq d decompTable with
  | some v =>
    rw [hq] at h
    have hm := assq_eq_some_mem hq
    have := decompTable_values_ok
    rw [List.all_eq_true] at this
    have hv := this _ hm
    rw [List.all_eq_true] at hv
    have := hv _ h
    rw [Option.isNone_iff_eq_none] at this
    exact decomp_of_assq_none this
  | none =>
    rw [hq] at h
    simp at h
    subst h
    exact decomp_of_assq_none hq

/-- Lowercasing is idempotent and its image neither decomposes nor is a mark
nor whitespace, when the character already neither decomposes nor is a mark. -/
theorem jsLower_good {c : Char} (hd : decomp c = [c])
    (hm : isCombiningMark c = false) : charFixed (jsLower c) := by
  unfold jsLower
  cases hq : assq c lowerTable with
  | some v =>
    have hmem := assq_eq_some_mem hq
    have hall := lowerTable_values_ok
    rw [List.all_eq_true] at hall
    have hv := hall _ hmem
    rw [Bool.or_eq_true] at hv
    rcases hv with hv | hv
    · exfalso
      rw [Option.isSome_iff_exists] at hv
      obtain ⟨l, hl⟩ := hv
      have hdl : decomp c = l := by simp [decomp, hl]
      have hmem2 := assq_eq_some_mem hl
      have hlens := decompTable_pair_lengths
      rw [List.all_eq_true] at hlens
      have hlen := hlens _ hmem2
      rw [decide_eq_true_iff] at hlen
      rw [hd] at hdl
      rw [← hdl] at hlen
      simp at hlen
    · simp only [Bool.and_eq_true, Bool.not_eq_true', Option.isNone_iff_eq_none] at hv
      exact ⟨decomp_of_assq_none hv.1.1.1, jsLower_of_assq_none hv.1.1.2, hv.1.2⟩
  | none =>
    exact ⟨hd, by rw [jsLower, hq], hm⟩

theorem space_charFixed : charFixed ' ' ∧ isJsWs ' ' = true := by
  refine ⟨⟨?_, ?_, ?_⟩, ?_⟩ <;> decide

/-- Members of the collapsed list are members of the input or the space. -/
theorem mem_collapseWs {c : Char} :
    ∀ (b : Bool) (l : List Char), c ∈ collapseWs b l → c ∈ l ∨ c = ' ' := by
  intro b l
  induction l generalizing b with
  | nil => intro h; simp [collapseWs] at h
  | cons d rest ih =>
    intro h
    by_cases hws : isJsWs d
    · cases b with
      | true =>
        simp only [collapseWs, hws, if_true] at h
        rcases ih true h with h1 | h1
        · exact Or.inl (List.mem_cons_of_mem _ h1)
        · exact Or.inr h1
      | false =>
        simp only [collapseWs, hws, if_true] at h
        rcases List.mem_cons.mp h with h1 | h1
        · exact Or.inr h1
        · rcases ih true h1 with h2 | h2
          · exact Or.inl (List.mem_cons_of_mem _ h2)
          · exact Or.inr h2
    · simp only [collapseWs, hws, if_false, Bool.false_eq_true] at h
      rcases List.mem_cons.mp h with h1 | h1
      · exact Or.inl (h1 ▸ List.mem_cons_self _ _)
      · rcases ih false h1 with h2 | h2
        · exact Or.inl (List.mem_cons_of_mem _ h2)
        · exact Or.inr h2

/-- Whitespace in the collapsed list is exactly the single space. -/
theorem collapseWs_ws_space {c : Char} :
    ∀ (b : Bool) (l : List Char), c ∈ collapseWs b l → isJsWs c = true → c = ' ' := by
  intro b l
  induction l generalizing b with
  | nil => intro h; simp [collapseWs] at h
  | cons d rest ih =>
    intro h hws
    by_cases hd : isJsWs d
    · cases b with
      | true =>
        simp only [collapseWs, hd, if_true] at h
        exact ih true h hws
      | false =>
        simp only [collapseWs, hd, if_true] at h
        rcases List.mem_cons.mp h with h1 | h1
        · exact h1
        · exact ih true h1 hws
    · simp only [collapseWs, hd, if_false, Bool.false_eq_true] at h
      rcases List.mem_cons.mp h with h1 | h1
      · exact absurd (h1 ▸ hws) hd
      · exact ih false h1 hws

end NormalizeLemmas

section NormalizeStructure

/-- Unfolding equation: leading whitespace inside a run is dropped. -/
theorem collapseWs_cons_ws_true {d : Char} {rest : List Char}
    (h : isJsWs d = true) : collapseWs true (d :: rest) = collapseWs true rest := by
  simp [collapseWs, h]

/-- Unfolding equation: whitespace starting a run becomes one space. -/
theorem collapseWs_cons_ws_false {d : Char} {rest : List Char}
    (h : isJsWs d = true) :
    collapseWs false (d :: rest) = ' ' :: collapseWs true rest := by
  simp [collapseWs, h]

/-- Unfolding equation: a non-whitespace character is kept. -/
theorem collapseWs_cons_not_ws {d : Char} {rest : List Char} {b : Bool}
    (h : isJsWs d = false) :
    collapseWs b (d :: rest) = d :: collapseWs false rest := by
  cases b <;> simp [collapseWs, h]

/-- No two adjacent whitespace characters. -/
def noWsPair (a b : Char) : Prop := ¬(isJsWs a = true ∧ isJsWs b = true)

/-- The collapsed output has no adjacent whitespace pair, and with the flag
set it starts with a non-whitespace character when nonempty. -/
theorem collapseWs_chain :
    ∀ (l : List Char) (b : Bool),
      List.Chain' noWsPair (collapseWs b l) ∧
        (b = true → ∀ c, (collapseWs b l).head? = some c → isJsWs c = false) := by
  intro l
  induction l with
  | nil => intro b; simp [collapseWs]
  | cons d rest ih =>
    intro b
    by_cases hd : isJsWs d
    · cases b with
      | true =>
        rw [collapseWs_cons_ws_true hd]
        exact ⟨(ih true).1, fun _ => (ih true).2 rfl⟩
      | false =>
        rw [collapseWs_cons_ws_false hd]
        constructor
        · rw [List.chain'_cons']
          refine ⟨?_, (ih true).1⟩
          intro y hy hpair
          have := (ih true).2 rfl y hy
          rw [this] at hpair
          exact absurd hpair.2 (by simp)
        · intro hb
          exact absurd hb (by simp)
    · rw [Bool.not_eq_true] at hd
      rw [collapseWs_cons_not_ws hd]
      constructor
      · rw [List.chain'_cons']
        refine ⟨?_, (ih false).1⟩
        intro y _ hpair
        rw [hd] at hpair
        exact absurd hpair.1 (by simp)
      · intro _ c hc
        simp only [List.head?_cons, Option.some.injEq] at hc
        rw [← hc]
        exact hd

/-- The collapsed list is nonempty when the input holds a non-whitespace
character. -/
theorem collapseWs_ne_nil {l : List Char} {e : Char}
    (he : e ∈ l) (hws : isJsWs e = false) :
    ∀ b, collapseWs b l ≠ [] := by
  induction l with
  | nil => simp at he
  | cons d rest ih =>
    intro b
    by_cases hd : isJsWs d
    · have hrest : e ∈ rest := by
        rcases List.mem_cons.mp he with h1 | h1
        · rw [← h1, hws] at hd; exact absurd hd (by simp)
        · exact h1
      cases b with
      | true =>
        rw [collapseWs_cons_ws_true hd]
        exact ih hrest true
      | false =>
        rw [collapseWs_cons_ws_false hd]
        simp
    · rw [Bool.not_eq_true] at hd
      rw [collapseWs_cons_not_ws hd]
      simp

/-- The collapsed list ends in a non-whitespace character whenever the input
does. -/
theorem collapseWs_last :
    ∀ (l : List Char) (b : Bool),
      (∀ c, l.getLast? = some c → isJsWs c = false) →
      ∀ c, (collapseWs b l).getLast? = some c → isJsWs c = false := by
  intro l
  induction l with
  | nil => intro b _ c hc; simp [collapseWs] at hc
  | cons d rest ih =>
    intro b hlast c hc
    cases rest with
    | nil =>
      have hdws : isJsWs d = false := hlast d (by simp)
      rw [collapseWs_cons_not_ws hdws] at hc
      simp [collapseWs] at hc
      rw [← hc]
      exact hdws
    | cons e r =>
      have hlast2 : ∀ x, (e :: r).getLast? = some x → isJsWs x = false := by
        intro x hx
        exact hlast x (by rw [List.getLast?_cons_cons]; exact hx)
      have hnenil : ∃ x ∈ e :: r, isJsWs x = false := by
        have h1 : (e :: r).getLast? = some ((e :: r).getLast (by simp)) :=
          List.getLast?_eq_getLast_of_ne_nil (by simp)
        exact ⟨(e :: r).getLast (by simp), List.getLast_mem _, hlast2 _ h1⟩
      by_cases hd : isJsWs d
      · cases b with
        | true =>
          rw [collapseWs_cons_ws_true hd] at hc
          exact ih true hlast2 c hc
        | false =>
          rw [collapseWs_cons_ws_false hd] at hc
          obtain ⟨x, hx, hxws⟩ := hnenil
          have hne := collapseWs_ne_nil hx hxws true
          cases hcoll : collapseWs true (e :: r) with
          | nil => exact absurd hcoll hne
          | cons y t =>
            rw [hcoll, List.getLast?_cons_cons] at hc
            exact ih true hlast2 c (by rw [hcoll]; exact hc)
      · rw [Bool.not_eq_true] at hd
        rw [collapseWs_cons_not_ws hd] at hc
        cases hcoll : collapseWs false (e :: r) with
        | nil =>
          rw [hcoll] at hc
          simp at hc
          rw [← hc]
          exact hd
        | cons y t =>
          rw [hcoll, List.getLast?_cons_cons] at hc
          exact ih false hlast2 c (by rw [hcoll]; exact hc)

/-- A list already in collapsed shape is a fixed point of the collapse. -/
theorem collapseWs_fixed :
    ∀ (l : List Char),
      (∀ c ∈ l, isJsWs c = true → c = ' ') →
      List.Chain' noWsPair l →
      ∀ b, (b = true → ∀ c, l.head? = some c → isJsWs c = false) →
      collapseWs b l = l := by
  intro l
  induction l with
  | nil => intro _ _ b _; simp [collapseWs]
  | cons d rest ih =>
    intro hsp hchain b hb
    by_cases hd : isJsWs d
    · cases b with
      | true =>
        have := hb rfl d (by simp)
        rw [hd] at this
        exact absurd this (by simp)
      | false =>
        have hdsp : d = ' ' := hsp d (by simp) hd
        rw [collapseWs_cons_ws_false hd, hdsp]
        congr 1
        apply ih (fun c hc => hsp c (List.mem_cons_of_mem _ hc)) hchain.tail true
        intro _ c hc
        rw [List.chain'_cons'] at hchain
        have hnp := hchain.1 c hc
        by_contra hcw
        rw [Bool.not_eq_false] at hcw
        exact hnp ⟨hd, hcw⟩
    · rw [Bool.not_eq_true] at hd
      rw [collapseWs_cons_not_ws hd]
      congr 1
      exact ih (fun c hc => hsp c (List.mem_cons_of_mem _ hc)) hchain.tail false
        (by intro h; exact absurd h (by simp))

/-- The collapse with the flag clear keeps a non-whitespace head. -/
theorem collapseWs_head {l : List Char}
    (hh : ∀ c, l.head? = some c → isJsWs c = false) :
    ∀ c, (collapseWs false l).head? = some c → isJsWs c = false := by
  cases l with
  | nil => intro c hc; simp [collapseWs] at hc
  | cons d rest =>
    have hd : isJsWs d = false := hh d rfl
    intro c hc
    rw [collapseWs_cons_not_ws hd] at hc
    simp only [List.head?_cons, Option.some.injEq] at hc
    rw [← hc]
    exact hd

end NormalizeStructure

section TrimLemmas

/-- Members of the trimmed list are members of the input. -/
theorem mem_trimWs {c : Char} {l : List Char} (h : c ∈ trimWs l) : c ∈ l := by
  unfold trimWs at h
  rw [List.mem_reverse] at h
  have h1 := (List.dropWhile_suffix isJsWs).subset h
  rw [List.mem_reverse] at h1
  exact (List.dropWhile_suffix isJsWs).subset h1

/-- The trimmed list starts with a non-whitespace character. -/
theorem trimWs_head {l : List Char} :
    ∀ c, (trimWs l).head? = some c → isJsWs c = false := by
  intro c hc
  unfold trimWs at hc
  rw [List.head?_reverse] at hc
  have hY : (l.dropWhile isJsWs).reverse.dropWhile isJsWs ≠ [] := by
    intro hnil
    rw [hnil] at hc
    simp at hc
  obtain ⟨u, hu⟩ := List.dropWhile_suffix (l := (l.dropWhile isJsWs).reverse) isJsWs
  have hXlast : (l.dropWhile isJsWs).reverse.getLast? = some c := by
    rw [← hu, List.getLast?_append_of_ne_nil _ hY]
    exact hc
  rw [List.getLast?_reverse] at hXlast
  have := List.head?_dropWhile_not isJsWs l
  rw [hXlast] at this
  exact this

/-- The trimmed list ends with a non-whitespace character. -/
theorem trimWs_last {l : List Char} :
    ∀ c, (trimWs l).getLast? = some c → isJsWs c = false := by
  intro c hc
  unfold trimWs at hc
  rw [List.getLast?_reverse] at hc
  have := List.head?_dropWhile_not isJsWs (l.dropWhile isJsWs).reverse
  rw [hc] at this
  exact this

/-- A list with non-whitespace ends is a fixed point of the trim. -/
theorem trimWs_fixed {l : List Char}
    (hh : ∀ c, l.head? = some c → isJsWs c = false)
    (hl : ∀ c, l.getLast? = some c → isJsWs c = false) :
    trimWs l = l := by
  cases l with
  | nil => rfl
  | cons d rest =>
    have hX : (d :: rest).dropWhile isJsWs = d :: rest := by
      rw [List.dropWhile_cons, hh d rfl]
      simp
    unfold trimWs
    rw [hX]
    have hne : (d :: rest).reverse ≠ [] := by simp
    cases hrev : (d :: rest).reverse with
    | nil => exact absurd hrev hne
    | cons e r =>
      have hlaste : isJsWs e = false := by
        apply hl
        rw [← List.head?_reverse, hrev]
        rfl
      rw [List.dropWhile_cons, hlaste]
      simp only [Bool.false_eq_true, if_false]
      rw [← hrev, List.reverse_reverse]

end TrimLemmas

section PipelineFixed

/-- A list of characters with trivial decomposition is fixed by the NFD. -/
theorem nfd_fixed {l : List Char} (h : ∀ c ∈ l, decomp c = [c]) :
    nfd l = l := by
  induction l with
  | nil => rfl
  | cons d rest ih =>
    unfold nfd
    rw [List.flatMap_cons, h d (by simp)]
    have := ih (fun c hc => h c (List.mem_cons_of_mem _ hc))
    unfold nfd at this
    rw [this]
    rfl

/-- The pipeline output: all characters are pipeline-fixed, whitespace is the
single space, no adjacent whitespace, and both ends are non-whitespace. -/
def normalForm (l : List Char) : Prop :=
  (∀ c ∈ l, charFixed c ∧ (isJsWs c = true → c = ' ')) ∧
  List.Chain' noWsPair l ∧
  (∀ c, l.head? = some c → isJsWs c = false) ∧
  (∀ c, l.getLast? = some c → isJsWs c = false)

/-- Every output of the Normalizer is in normal form. -/
theorem normalizeName_normalForm (s : List Char) :
    normalForm (normalizeName s) := by
  by_cases hs : s = []
  · subst hs
    refine ⟨?_, ?_, ?_, ?_⟩ <;> simp [normalizeName, List.chain'_nil]
  · unfold normalizeName
    rw [if_neg hs]
    set M : List Char := ((nfd s).filter (fun c => !isCombiningMark c)).map jsLower with hM
    have hMgood : ∀ c ∈ M, charFixed c := by
      intro c hc
      rw [hM, List.mem_map] at hc
      obtain ⟨d, hd, hdc⟩ := hc
      rw [List.mem_filter] at hd
      obtain ⟨hdn, hdm⟩ := hd
      have hddec : decomp d = [d] := by
        unfold nfd at hdn
        rw [List.mem_flatMap] at hdn
        obtain ⟨e, _, hde⟩ := hdn
        exact decomp_mem_fixed hde
      rw [Bool.not_eq_eq_eq_not, Bool.not_true] at hdm
      rw [← hdc]
      exact jsLower_good hddec hdm
    refine ⟨?_, (collapseWs_chain (trimWs M) false).1, ?_, ?_⟩
    · intro c hc
      have hws := collapseWs_ws_space false (trimWs M) hc
      rcases mem_collapseWs false (trimWs M) hc with h1 | h1
      · exact ⟨hMgood c (mem_trimWs h1), hws⟩
      · rw [h1]
        exact ⟨space_charFixed.1, fun _ => rfl⟩
    · exact collapseWs_head trimWs_head
    · exact collapseWs_last (trimWs M) false trimWs_last

/-- A list in normal form is a fixed point of the Normalizer. -/
theorem normalizeName_fixed {l : List Char} (h : normalForm l) :
    normalizeName l = l := by
  obtain ⟨hchars, hchain, hhead, hlast⟩ := h
  by_cases hl : l = []
  · subst hl; rfl
  · unfold normalizeName
    rw [if_neg hl]
    have h1 : nfd l = l := nfd_fixed (fun c hc => ((hchars c hc).1).1)
    rw [h1]
    have h2 : l.filter (fun c => !isCombiningMark c) = l := by
      rw [List.filter_eq_self]
      intro c hc
      rw [Bool.not_eq_eq_eq_not, Bool.not_true]
      exact ((hchars c hc).1).2.2
    rw [h2]
    have h3 : l.map jsLower = l := by
      have := List.map_congr_left (f := jsLower) (g := id)
        (l := l) (fun c hc => ((hchars c hc).1).2.1)
      rw [this, List.map_id]
    rw [h3]
    rw [trimWs_fixed hhead hlast]
    exact collapseWs_fixed l (fun c hc => (hchars c hc).2) hchain false
      (by intro hb; exact absurd hb (by simp))

end PipelineFixed

/-- C5: the Normalizer is idempotent: normalizing an already-normalized
string returns it unchanged, for every input string. -/
theorem normalizeName_idempotent (s : List Char) :
    normalizeName (normalizeName s) = normalizeName s :=
  normalizeName_fixed (normalizeName_normalForm s)

/-- C6: the Normalizer is a total function: it is defined on every input
string and returns a string, the empty string gives the empty string, and an
undefined argument (the falsy guard) also gives the empty string. -/
theorem normalizeName_total :
    normalizeName [] = [] ∧ normalizeNameOpt none = [] ∧
      ∀ s : List Char, ∃ t : List Char, normalizeName s = t :=
  ⟨rfl, rfl, fun s => ⟨normalizeName s, rfl⟩⟩

/-- C7: the street key is the normalized name, one fixed separator character,
then the normalized admin area; distinct normalized admin areas therefore give
distinct keys for the same street name. -/
theorem makeStreetKey_spec :
    (∀ name adminArea : List Char,
      makeStreetKey (some name) (some adminArea) =
        normalizeName name ++ '|' :: normalizeName adminArea) ∧
    (∀ n a b : List Char, normalizeName a ≠ normalizeName b →
      makeStreetKey (some n) (some a) ≠ makeStreetKey (some n) (some b)) := by
  constructor
  · intro name adminArea
    rfl
  · intro n a b hne hkey
    unfold makeStreetKey normalizeNameOpt at hkey
    simp only [Option.getD_some] at hkey
    have h1 := List.append_cancel_left hkey
    exact hne (List.cons_eq_cons.mp h1).2

/-- Witness for C7 at concrete inputs: street name s, admin areas x and y. -/
theorem makeStreetKey_spec_witness :
    makeStreetKey (some ['s']) (some ['x']) ≠ makeStreetKey (some ['s']) (some ['y']) :=
  makeStreetKey_spec.2 ['s'] ['x'] ['y'] (by decide)

/-
Model of src/lib/funda/slug.ts.
-/

/-- Generic run-squashing automaton: every maximal run of characters
satisfying `p` becomes the single character `e`; the flag records whether the
previous character was in a run.  Instantiated for the whitespace-run
replacement and the dash-run replacement of the slug pipeline. -/
def squashRuns (p : Char → Bool) (e : Char) : Bool → List Char → List Char
  | _, [] => []
  | prev, c :: rest =>
    if p c then
      if prev then squashRuns p e true rest
      else e :: squashRuns p e true rest
    else c :: squashRuns p e false rest

/-- Dash test for the slug pipeline. -/
def isDash (c : Char) : Bool := c = '-'

/-- Characters kept by `.replace(/[^a-z0-9-]/g, '')`. -/
def isSlugKeep (c : Char) : Bool :=
  (decide ('a'.toNat ≤ c.toNat) && decide (c.toNat ≤ 'z'.toNat)) ||
  (decide ('0'.toNat ≤ c.toNat) && decide (c.toNat ≤ '9'.toNat)) ||
  isDash c

/-- Model of `.replace(/^-+|-+$/g, '')`: strip dashes from both ends. -/
def trimDash (l : List Char) : List Char :=
  ((l.dropWhile isDash).reverse.dropWhile isDash).reverse

/-- The slug pipeline shared by `cityToSlug` (and the other slugifiers in
src/lib/funda/slug.ts): lowercase, trim, NFD, strip marks, whitespace runs to
dashes, drop characters outside [a-z0-9-], collapse dash runs, strip
leading/trailing dashes, in the order of the source. -/
def slugPipeline (c : List Char) : List Char :=
  trimDash
    (squashRuns isDash '-' false
      ((squashRuns isJsWs '-' false
          ((nfd (trimWs (c.map jsLower))).filter (fun x => !isCombiningMark x))).filter
        isSlugKeep))

/-- Model of `cityToSlug` from src/lib/funda/slug.ts: the falsy/whitespace
guard returns the default slug, otherwise the slug pipeline runs. -/
def cityToSlug (city : Option (List Char)) : List Char :=
  match city with
  | none => "amsterdam".data
  | some c => if c = [] ∨ trimWs c = [] then "amsterdam".data else slugPipeline c

/-- Characters accepted by the validation regex `/^[a-z0-9-]+$/` of
`buildFundaBuurtUrl`. -/
def isSlugAllowed (c : Char) : Bool :=
  (decide ('a'.toNat ≤ c.toNat) && decide (c.toNat ≤ 'z'.toNat)) ||
  (decide ('0'.toNat ≤ c.toNat) && decide (c.toNat ≤ '9'.toNat)) ||
  isDash c

/-- Model of `/^[a-z0-9-]+$/.test(slug)`: nonempty and all characters
allowed. -/
def slugRegexTest (s : List Char) : Bool :=
  !s.isEmpty && s.all isSlugAllowed

/-- JSON string escaping for `JSON.stringify` on plain strings (quote and
backslash; the slugs and city slugs the function handles hold no control
characters, which the model leaves unescaped). -/
def escJson (l : List Char) : List Char :=
  l.flatMap (fun c =>
    if c = '"' then ['\\', '"']
    else if c = '\\' then ['\\', '\\']
    else [c])

/-- Model of `JSON.stringify` on an array of strings. -/
def jsonArr (items : List (List Char)) : List Char :=
  '[' :: (List.intercalate [','] (items.map (fun s => '"' :: (escJson s ++ ['"'])))) ++ [']']

/-- UTF-8 bytes of one character, as numbers. -/
def utf8Bytes (c : Char) : List Nat :=
  let n := c.toNat
  if n < 0x80 then [n]
  else if n < 0x800 then [0xC0 + n / 64, 0x80 + n % 64]
  else if n < 0x10000 then [0xE0 + n / 4096, 0x80 + (n / 64) % 64, 0x80 + n % 64]
  else [0xF0 + n / 262144, 0x80 + (n / 4096) % 64, 0x80 + (n / 64) % 64, 0x80 + n % 64]

/-- Uppercase hexadecimal digit. -/
def hexDigit (n : Nat) : Char :=
  if n < 10 then Char.ofNat (48 + n) else Char.ofNat (55 + n)

/-- Characters `URLSearchParams` leaves unencoded. -/
def isFormSafe (c : Char) : Bool :=
  (decide ('a'.toNat ≤ c.toNat) && decide (c.toNat ≤ 'z'.toNat)) ||
  (decide ('A'.toNat ≤ c.toNat) && decide (c.toNat ≤ 'Z'.toNat)) ||
  (decide ('0'.toNat ≤ c.toNat) && decide (c.toNat ≤ '9'.toNat)) ||
  c = '*' || c = '-' || c = '.' || c = '_'

/-- Model of `URLSearchParams` percent-encoding of one value. -/
def formEncode (l : List Char) : List Char :=
  l.flatMap (fun c =>
    if isFormSafe c then [c]
    else if c = ' ' then ['+']
    else (utf8Bytes c).flatMap (fun b => ['%', hexDigit (b / 16), hexDigit (b % 16)]))

/-- Model of `buildFundaBuurtUrl` from src/lib/funda/slug.ts: the two throw
sites become `Except.error`; the success path builds the search URL with the
`selected_area` and `availability` parameters in insertion order. -/
def buildFundaBuurtUrl (citySlug : List Char) (buurtSlugs : List (List Char)) :
    Except (List Char) (List Char) :=
  if buurtSlugs.isEmpty then
    Except.error ("At least one buurt slug must be provided".data)
  else if !(buurtSlugs.filter (fun slug => !slugRegexTest slug)).isEmpty then
    Except.error ("Invalid buurt slugs found".data)
  else
    let selectedArea := buurtSlugs.map (fun slug => citySlug ++ "/buurt-".data ++ slug)
    Except.ok
      ("https://www.funda.nl/zoeken/koop?selected_area=".data ++
        formEncode (jsonArr selectedArea) ++
        "&availability=".data ++
        formEncode (jsonArr ["negotiations".data, "unavailable".data]))

/-- Reduction of `Except.isOk` on a success. -/
theorem isOk_ok {e a : Type} (x : a) : (Except.ok (ε := e) x).isOk = true := rfl

/-- Reduction of `Except.isOk` on an error. -/
theorem isOk_error {e a : Type} (x : e) : (Except.error (α := a) x).isOk = false := rfl

/-- C9 (amended): the URL builder succeeds exactly when the slug list is
nonempty and every slug is nonempty and made of lowercase letters, digits and
dashes; otherwise it throws. -/
theorem buildFundaBuurtUrl_ok_iff (citySlug : List Char) (buurtSlugs : List (List Char)) :
    (buildFundaBuurtUrl citySlug buurtSlugs).isOk = true ↔
      (buurtSlugs ≠ [] ∧ ∀ s ∈ buurtSlugs, s ≠ [] ∧ ∀ c ∈ s, isSlugAllowed c = true) := by
  unfold buildFundaBuurtUrl
  by_cases h1 : buurtSlugs.isEmpty = true
  · rw [if_pos h1, List.isEmpty_iff] at *
    rw [h1] at *
    rw [isOk_error]
    simp
  · rw [if_neg h1]
    rw [List.isEmpty_iff] at h1
    by_cases h2 : (buurtSlugs.filter (fun slug => !slugRegexTest slug)).isEmpty = true
    · rw [h2]
      simp only [Bool.not_true, Bool.false_eq_true, if_false]
      rw [List.isEmpty_iff, List.filter_eq_nil_iff] at h2
      rw [isOk_ok]
      constructor
      · intro _
        refine ⟨h1, fun s hs => ?_⟩
        have h3 := h2 s hs
        simp only [Bool.not_eq_true] at h3
        have h4 : slugRegexTest s = true := by
          by_contra hb
          rw [Bool.not_eq_true] at hb
          rw [hb] at h3
          simp at h3
        unfold slugRegexTest at h4
        rw [Bool.and_eq_true, List.all_eq_true] at h4
        refine ⟨?_, h4.2⟩
        intro hnil
        rw [hnil] at h4
        simp at h4
      · intro _
        rfl
    · rw [Bool.not_eq_true] at h2
      rw [h2]
      simp only [Bool.not_false, if_true]
      rw [isOk_error]
      rw [Bool.eq_false_iff] at h2
      constructor
      · intro hfalse
        exact absurd hfalse (by simp)
      · intro hvalid
        exfalso
        apply h2
        rw [List.isEmpty_iff, List.filter_eq_nil_iff]
        intro s hs
        have hv := hvalid.2 s hs
        simp only [Bool.not_eq_true]
        have h4 : slugRegexTest s = true := by
          unfold slugRegexTest
          rw [Bool.and_eq_true, List.all_eq_true]
          refine ⟨?_, hv.2⟩
          have : s.isEmpty = false := by
            rw [← Bool.not_eq_true, List.isEmpty_iff]
            exact hv.1
          simp [this]
        rw [h4]
        simp

/-- Witness for C9 at a concrete valid slug list. -/
theorem buildFundaBuurtUrl_ok_iff_witness :
    (buildFundaBuurtUrl ("amsterdam".data) ["jordaan".data]).isOk = true :=
  (buildFundaBuurtUrl_ok_iff ("amsterdam".data) ["jordaan".data]).mpr (by decide)

/-- Counterexample to C9 as stated: the list holding one empty slug is not
empty and none of its elements holds a character outside [a-z0-9-], yet the
builder throws (the validation regex also rejects empty slugs). -/
theorem buildFundaBuurtUrl_claim_counterexample :
    (buildFundaBuurtUrl ("amsterdam".data) [[]]).isOk = false ∧
    ([([] : List Char)].isEmpty = false) ∧
    ([([] : List Char)].all (fun s => s.all isSlugAllowed) = true) := by
  refine ⟨?_, ?_, ?_⟩ <;> decide

/-- C10: `cityToSlug` returns the default slug exactly on undefined, empty or
whitespace-only input, and the slug pipeline output otherwise; evaluated on
the unit-test inputs of the repository and on an accented uppercase city
name as grounding. -/
theorem cityToSlug_spec :
    cityToSlug none = "amsterdam".data ∧
    (∀ s : List Char, trimWs s = [] → cityToSlug (some s) = "amsterdam".data) ∧
    (∀ s : List Char, trimWs s ≠ [] → cityToSlug (some s) = slugPipeline s) ∧
    cityToSlug (some ("Den Haag".data)) = "den-haag".data ∧
    cityToSlug (some ("Amsterdam".data)) = "amsterdam".data ∧
    cityToSlug (some ("Édam".data)) = "edam".data := by
  refine ⟨rfl, ?_, ?_, by decide, by decide, by decide⟩
  · intro s h
    simp only [cityToSlug]
    rw [if_pos (Or.inr h)]
  · intro s h
    simp only [cityToSlug]
    rw [if_neg]
    rintro (h1 | h2)
    · subst h1
      exact h rfl
    · exact h h2

/-- Witness for C10 at whitespace-only and at an ordinary city name. -/
theorem cityToSlug_spec_witness :
    cityToSlug (some ("   ".data)) = "amsterdam".data ∧
    cityToSlug (some ("Den Haag".data)) = slugPipeline ("Den Haag".data) :=
  ⟨cityToSlug_spec.2.1 _ (by decide), cityToSlug_spec.2.2.1 _ (by decide)⟩

/-
Generic helper: a sorted permutation is unique when elements of the list are
pairwise antisymmetric for the sorting relation.  Used for the determinism
parts of the ranking claims.
-/

theorem sorted_perm_eq {α : Type} {r : α → α → Prop} :
    ∀ {l₁ l₂ : List α},
      (∀ a ∈ l₁, ∀ b ∈ l₁, r a b → r b a → a = b) →
      l₁.Perm l₂ → l₁.Sorted r → l₂.Sorted r → l₁ = l₂ := by
  intro l₁
  induction l₁ with
  | nil =>
    intro l₂ _ hp _ _
    exact (hp.nil_eq).symm ▸ rfl
  | cons a t ih =>
    intro l₂ hanti hp hs₁ hs₂
    cases l₂ with
    | nil => exact absurd hp.symm (by simp [List.Perm.eq_nil, List.eq_nil_iff_forall_not_mem]; exact ⟨a, by simp⟩)
    | cons b t₂ =>
      have hab : a = b := by
        by_cases hne : a = b
        · exact hne
        · have ha2 : a ∈ b :: t₂ := hp.subset (List.mem_cons_self _ _)
          have hb1 : b ∈ a :: t := hp.symm.subset (List.mem_cons_self _ _)
          have ha2t : a ∈ t₂ := (List.mem_cons.mp ha2).resolve_left hne
          have hb1t : b ∈ t := (List.mem_cons.mp hb1).resolve_left (fun h => hne h.symm)
          have hr1 : r a b := (List.sorted_cons.mp hs₁).1 b hb1t
          have hr2 : r b a := (List.sorted_cons.mp hs₂).1 a ha2t
          exact hanti a (List.mem_cons_self _ _) b (List.mem_cons_of_mem _ hb1t) hr1 hr2
      subst hab
      have hpt : t.Perm t₂ := hp.cons_inv
      have hrec := ih
        (fun x hx y hy hxy hyx =>
          hanti x (List.mem_cons_of_mem _ hx) y (List.mem_cons_of_mem _ hy) hxy hyx)
        hpt (List.sorted_cons.mp hs₁).2 (List.sorted_cons.mp hs₂).2
      rw [hrec]

/-
Model of src/lib/nearestBuurten.ts.  The haversine itself computes with
trigonometric functions on floats; the model abstracts it as a supplied
distance function on coordinates, and verifies the pipeline around it:
attach a distance to every buurt, sort by distance with the name tie-break,
take the first n.
-/

/-- Coordinates as in the `Location` interface of src/lib/nearestBuurten.ts. -/
structure Location where
  lat : ℚ
  lng : ℚ
deriving DecidableEq

/-- A processed buurt record as in src/lib/buurtenNL.ts (centroid stored as
longitude then latitude, as in the source array). -/
structure Buurt where
  name : String
  municipalitySlug : String
  fundaSlug : String
  centroidLng : ℚ
  centroidLat : ℚ
deriving DecidableEq

/-- A buurt together with its computed distance, as in the
`BuurtWithDistance` interface. -/
structure BuurtWithDistance extends Buurt where
  distance_m : ℚ
deriving DecidableEq

/-- The sort comparator of `nearestBuurtenNL`: ascending distance, ties by
name ascending. -/
def bdLE (a b : BuurtWithDistance) : Prop :=
  a.distance_m < b.distance_m ∨ (a.distance_m = b.distance_m ∧ a.name ≤ b.name)

instance : DecidableRel bdLE := fun a b => by
  unfold bdLE
  exact inferInstance

/-- The comparator agrees with the lexicographic order on (distance, name). -/
theorem bdLE_iff_lex (a b : BuurtWithDistance) :
    bdLE a b ↔ toLex (a.distance_m, a.name) ≤ toLex (b.distance_m, b.name) := by
  rw [Prod.Lex.le_iff]
  rfl

instance : IsTotal BuurtWithDistance bdLE :=
  ⟨fun a b => by
    rw [bdLE_iff_lex, bdLE_iff_lex]
    exact le_total _ _⟩

instance : IsTrans BuurtWithDistance bdLE :=
  ⟨fun a b c hab hbc => by
    rw [bdLE_iff_lex] at *
    exact le_trans hab hbc⟩

/-- Model of `nearestBuurtenNL`: map every buurt to itself with its distance
from the point, sort by distance with the name tie-break, take the first n.
The distance function stands for the haversine on the point and the buurt
centroid (taken as [lng, lat] in the source). -/
def nearestBuurtenNL (hav : Location → Location → ℚ) (allBuurten : List Buurt)
    (point : Location) (n : ℕ) : List BuurtWithDistance :=
  ((allBuurten.map (fun b =>
      { toBuurt := b,
        distance_m := hav point { lat := b.centroidLat, lng := b.centroidLng } })).insertionSort
    bdLE).take n

/-- C8: the nearest-buurten lookup returns at most n buurten, ordered by
nondecreasing distance with equal distances ordered by name ascending, each
carrying its buurt from the pool with its computed distance; and on pools
with distinct buurt names the result does not depend on the order the pool
is presented in, so two calls with the same inputs return the same list. -/
theorem nearestBuurtenNL_spec (hav : Location → Location → ℚ)
    (allBuurten : List Buurt) (point : Location) (n : ℕ) :
    (nearestBuurtenNL hav allBuurten point n).length ≤ n ∧
    List.Sorted bdLE (nearestBuurtenNL hav allBuurten point n) ∧
    (∀ x ∈ nearestBuurtenNL hav allBuurten point n,
      x.toBuurt ∈ allBuurten ∧
        x.distance_m = hav point { lat := x.centroidLat, lng := x.centroidLng }) ∧
    (∀ pool : List Buurt, pool.Perm allBuurten →
      (∀ a ∈ allBuurten, ∀ b ∈ allBuurten, a.name = b.name → a = b) →
      nearestBuurtenNL hav pool point n = nearestBuurtenNL hav allBuurten point n) := by
  refine ⟨?_, ?_, ?_, ?_⟩
  · rw [nearestBuurtenNL, List.length_take]
    exact min_le_left _ _
  · exact List.Pairwise.sublist (List.take_sublist _ _)
      (List.sorted_insertionSort bdLE _)
  · intro x hx
    have hx1 : x ∈ (allBuurten.map (fun b =>
        { toBuurt := b,
          distance_m := hav point { lat := b.centroidLat, lng := b.centroidLng } :
            BuurtWithDistance })).insertionSort bdLE :=
      (List.take_sublist _ _).subset hx
    rw [(List.perm_insertionSort bdLE _).mem_iff, List.mem_map] at hx1
    obtain ⟨b, hb, hbx⟩ := hx1
    rw [← hbx]
    exact ⟨hb, rfl⟩
  · intro pool hperm hinj
    unfold nearestBuurtenNL
    congr 1
    apply sorted_perm_eq (r := bdLE)
    · intro x hx y hy hxy hyx
      have hkey : toLex (x.distance_m, x.name) = toLex (y.distance_m, y.name) := by
        rw [bdLE_iff_lex] at hxy hyx
        exact le_antisymm hxy hyx
      have hpair := congrArg ofLex hkey
      have hname : x.name = y.name := congrArg Prod.snd hpair
      have hxm : x ∈ pool.map (fun b =>
          { toBuurt := b,
            distance_m := hav point { lat := b.centroidLat, lng := b.centroidLng } :
              BuurtWithDistance }) :=
        ((List.perm_insertionSort bdLE _).mem_iff).mp hx
      have hym : y ∈ pool.map (fun b =>
          { toBuurt := b,
            distance_m := hav point { lat := b.centroidLat, lng := b.centroidLng } :
              BuurtWithDistance }) :=
        ((List.perm_insertionSort bdLE _).mem_iff).mp hy
      rw [List.mem_map] at hxm hym
      obtain ⟨bx, hbx, hbxe⟩ := hxm
      obtain ⟨by2, hby, hbye⟩ := hym
      have hbxa : bx ∈ allBuurten := hperm.subset hbx
      have hbya : by2 ∈ allBuurten := hperm.subset hby
      have hnames : bx.name = by2.name := by
        rw [← hbxe, ← hbye] at hname
        exact hname
      have hbeq : bx = by2 := hinj bx hbxa by2 hbya hnames
      rw [← hbxe, ← hbye, hbeq]
    · exact (List.perm_insertionSort bdLE _).trans
        ((hperm.map _).trans (List.perm_insertionSort bdLE _).symm)
    · exact List.sorted_insertionSort bdLE _
    · exact List.sorted_insertionSort bdLE _

/-- Witness for C8: a two-buurt pool presented in both orders. -/
theorem nearestBuurtenNL_spec_witness :
    (nearestBuurtenNL (fun p q => p.lat - q.lat + p.lng - q.lng)
        [{ name := "b", municipalitySlug := "m", fundaSlug := "b",
           centroidLng := 1, centroidLat := 2 },
         { name := "a", municipalitySlug := "m", fundaSlug := "a",
           centroidLng := 3, centroidLat := 4 }]
        { lat := 0, lng := 0 } 4).length ≤ 4 ∧
    (nearestBuurtenNL (fun p q => p.lat - q.lat + p.lng - q.lng)
        [{ name := "a", municipalitySlug := "m", fundaSlug := "a",
           centroidLng := 3, centroidLat := 4 },
         { name := "b", municipalitySlug := "m", fundaSlug := "b",
           centroidLng := 1, centroidLat := 2 }]
        { lat := 0, lng := 0 } 4 =
      nearestBuurtenNL (fun p q => p.lat - q.lat + p.lng - q.lng)
        [{ name := "b", municipalitySlug := "m", fundaSlug := "b",
           centroidLng := 1, centroidLat := 2 },
         { name := "a", municipalitySlug := "m", fundaSlug := "a",
           centroidLng := 3, centroidLat := 4 }]
        { lat := 0, lng := 0 } 4) := by
  refine ⟨(nearestBuurtenNL_spec _ _ _ _).1, (nearestBuurtenNL_spec _ _ _ _).2.2.2 _ ?_ ?_⟩
  · decide
  · decide

/-
Spec-modelled core: the scoring/ranking/valuation engine described by the
design document.  Only its type declarations (the `Comparable` interface in
src/lib/neighbourhoodFinder.ts) and the documented weight table are present
in the repository sources; the definitions below are modelled from the
specification text.
-/

/-- Modelled from the spec: a ScoredCandidate as consumed by the Ranker — a
candidate identifier, the composite score, the price-per-area, and the
wrapped candidate record (opaque payload). -/
structure ScoredCandidate where
  id : String
  score : ℚ
  ppm2 : ℚ
  raw : String
deriving DecidableEq

/-- Modelled from the spec: the Ranker ordering — composite score descending,
tie-break price-per-area ascending, secondary tie-break identifier
ascending. -/
def rankLE (a b : ScoredCandidate) : Prop :=
  b.score < a.score ∨
    (a.score = b.score ∧ (a.ppm2 < b.ppm2 ∨ (a.ppm2 = b.ppm2 ∧ a.id ≤ b.id)))

instance : DecidableRel rankLE := fun a b => by
  unfold rankLE
  exact inferInstance

/-- The ranking order agrees with the lexicographic order on
(negated score, price-per-area, identifier). -/
theorem rankLE_iff_lex (a b : ScoredCandidate) :
    rankLE a b ↔
      toLex (-a.score, toLex (a.ppm2, a.id)) ≤ toLex (-b.score, toLex (b.ppm2, b.id)) := by
  unfold rankLE
  rw [Prod.Lex.le_iff, Prod.Lex.le_iff]
  constructor
  · rintro (h | ⟨he, h2⟩)
    · exact Or.inl (neg_lt_neg h)
    · exact Or.inr ⟨by rw [he], h2⟩
  · rintro (h | ⟨he, h2⟩)
    · exact Or.inl (neg_lt_neg_iff.mp h)
    · exact Or.inr ⟨neg_inj.mp he, h2⟩

instance : IsTotal ScoredCandidate rankLE :=
  ⟨fun a b => by
    rw [rankLE_iff_lex, rankLE_iff_lex]
    exact le_total _ _⟩

instance : IsTrans ScoredCandidate rankLE :=
  ⟨fun a b c hab hbc => by
    rw [rankLE_iff_lex] at *
    exact le_trans hab hbc⟩

/-- Modelled from the spec: the ordering step of `rank()` (§4.4): a
deterministic sort of the scored pool under the ranking order.  The
membership filters of §4.4 act before this step and do not alter it. -/
def rank (pool : List ScoredCandidate) : List ScoredCandidate :=
  pool.insertionSort rankLE

/-- C3: rank returns a permutation of its input ordered by composite score
descending with the price-per-area and identifier tie-breaks, and on pools
whose identifiers determine their candidates the output is independent of
the input presentation order — in particular running rank twice on the same
input yields identical output. -/
theorem rank_spec (pool : List ScoredCandidate) :
    (rank pool).Perm pool ∧
    List.Sorted rankLE (rank pool) ∧
    (∀ pool2 : List ScoredCandidate, pool2.Perm pool →
      (∀ a ∈ pool, ∀ b ∈ pool, a.id = b.id → a = b) →
      rank pool2 = rank pool) := by
  refine ⟨List.perm_insertionSort rankLE pool, List.sorted_insertionSort rankLE pool, ?_⟩
  intro pool2 hperm hinj
  apply sorted_perm_eq (r := rankLE)
  · intro x hx y hy hxy hyx
    have hkey := le_antisymm (rankLE_iff_lex x y |>.mp hxy) (rankLE_iff_lex y x |>.mp hyx)
    have hpair := congrArg ofLex hkey
    have hinner := congrArg ofLex (congrArg Prod.snd hpair)
    have hid : x.id = y.id := congrArg Prod.snd hinner
    have hxm : x ∈ pool := hperm.subset (((List.perm_insertionSort rankLE pool2).mem_iff).mp hx)
    have hym : y ∈ pool := hperm.subset (((List.perm_insertionSort rankLE pool2).mem_iff).mp hy)
    exact hinj x hxm y hym hid
  · exact (List.perm_insertionSort rankLE pool2).trans
      (hperm.trans (List.perm_insertionSort rankLE pool).symm)
  · exact List.sorted_insertionSort rankLE pool2
  · exact List.sorted_insertionSort rankLE pool

/-- Witness for C3: a two-candidate pool presented in both orders. -/
theorem rank_spec_witness :
    (rank [{ id := "p1", score := 9/10, ppm2 := 4000, raw := "r1" },
           { id := "p2", score := 8/10, ppm2 := 4500, raw := "r2" }]).Perm
      [{ id := "p1", score := 9/10, ppm2 := 4000, raw := "r1" },
       { id := "p2", score := 8/10, ppm2 := 4500, raw := "r2" }] ∧
    rank [{ id := "p2", score := 8/10, ppm2 := 4500, raw := "r2" },
          { id := "p1", score := 9/10, ppm2 := 4000, raw := "r1" }] =
      rank [{ id := "p1", score := 9/10, ppm2 := 4000, raw := "r1" },
            { id := "p2", score := 8/10, ppm2 := 4500, raw := "r2" }] := by
  constructor
  · exact (rank_spec _).1
  · apply (rank_spec _).2.2
    · exact List.Perm.swap _ _ _
    · intro a ha b hb hab
      rcases List.mem_cons.mp ha with h1 | h1 <;>
        rcases List.mem_cons.mp hb with h2 | h2 <;>
          simp_all

/-- Modelled from the spec: the nine recognized scoring-component keys. -/
def recognizedWeightKeys : List String :=
  ["street", "streetType", "area", "location", "garden",
   "rooms", "bedrooms", "balconyTerrace", "energyLabel"]

/-- Modelled from the spec: a WeightConfiguration — one non-negative weight
per recognized scoring component. -/
structure WeightConfiguration where
  wStreet : ℚ
  wStreetType : ℚ
  wArea : ℚ
  wLocation : ℚ
  wGarden : ℚ
  wRooms : ℚ
  wBedrooms : ℚ
  wBalconyTerrace : ℚ
  wEnergyLabel : ℚ
deriving DecidableEq

/-- The tolerance on the weight sum. -/
def weightEps : ℚ := 1 / 1000000

/-- Association lookup on a string-keyed table. -/
def assocS {α : Type} (k : String) : List (String × α) → Option α
  | [] => none
  | p :: rest => if p.1 = k then some p.2 else assocS k rest

/-- The weight stored for a key, zero when absent (never reached on a
validated configuration). -/
def getW (k : String) (entries : List (String × ℚ)) : ℚ :=
  (assocS k entries).getD 0

/-- The key checks: every recognized key occurs exactly once and no entry
carries an unrecognized key. -/
def keysOkB (entries : List (String × ℚ)) : Bool :=
  recognizedWeightKeys.all (fun k => (entries.map Prod.fst).count k = 1) &&
    entries.all (fun e => recognizedWeightKeys.contains e.1)

/-- Modelled from the spec: configuration loading — a mapping from the nine
recognized keys to non-negative weights summing to 1.0 within the tolerance
is accepted as given (never renormalized); any other mapping is rejected
with an invalid-configuration error before any scoring occurs. -/
def loadWeightConfig (entries : List (String × ℚ)) : Except String WeightConfiguration :=
  if !keysOkB entries then
    Except.error "invalid-configuration: keys"
  else if !(entries.all (fun e => decide (0 ≤ e.2))) then
    Except.error "invalid-configuration: negative weight"
  else if !(decide (|((entries.map Prod.snd).sum) - 1| ≤ weightEps)) then
    Except.error "invalid-configuration: sum"
  else
    Except.ok
      { wStreet := getW "street" entries,
        wStreetType := getW "streetType" entries,
        wArea := getW "area" entries,
        wLocation := getW "location" entries,
        wGarden := getW "garden" entries,
        wRooms := getW "rooms" entries,
        wBedrooms := getW "bedrooms" entries,
        wBalconyTerrace := getW "balconyTerrace" entries,
        wEnergyLabel := getW "energyLabel" entries }

/-- The weight a configuration assigns to a recognized key. -/
def weightOf (w : WeightConfiguration) (k : String) : Option ℚ :=
  if k = "street" then some w.wStreet
  else if k = "streetType" then some w.wStreetType
  else if k = "area" then some w.wArea
  else if k = "location" then some w.wLocation
  else if k = "garden" then some w.wGarden
  else if k = "rooms" then some w.wRooms
  else if k = "bedrooms" then some w.wBedrooms
  else if k = "balconyTerrace" then some w.wBalconyTerrace
  else if k = "energyLabel" then some w.wEnergyLabel
  else none

/-- Validity of a raw weight mapping as the spec states it: exactly the nine
recognized keys, non-negative weights, sum within 1e-6 of 1. -/
def validWeightEntries (entries : List (String × ℚ)) : Prop :=
  (∀ k ∈ recognizedWeightKeys, (entries.map Prod.fst).count k = 1) ∧
  (∀ e ∈ entries, e.1 ∈ recognizedWeightKeys ∧ 0 ≤ e.2) ∧
  |((entries.map Prod.snd).sum) - 1| ≤ weightEps

/-- A key occurring exactly once is looked up to its stored value. -/
theorem assocS_of_count_one {k : String} {v : ℚ} :
    ∀ {entries : List (String × ℚ)},
      (entries.map Prod.fst).count k = 1 → (k, v) ∈ entries →
      assocS k entries = some v := by
  intro entries
  induction entries with
  | nil => intro _ hm; simp at hm
  | cons e rest ih =>
    intro hcount hm
    by_cases hk : e.1 = k
    · rw [assocS, if_pos hk]
      rcases List.mem_cons.mp hm with h1 | h1
      · rw [← h1]
      · exfalso
        have hkm : k ∈ rest.map Prod.fst := List.mem_map.mpr ⟨(k, v), h1, rfl⟩
        have hpos : 0 < (rest.map Prod.fst).count k := List.count_pos_iff.mpr hkm
        rw [List.map_cons, List.count_cons, hk] at hcount
        simp at hcount
        omega
    · rw [assocS, if_neg hk]
      rcases List.mem_cons.mp hm with h1 | h1
      · exact absurd (congrArg Prod.fst h1.symm) hk
      · apply ih ?_ h1
        rw [List.map_cons, List.count_cons] at hcount
        have hbeq : (e.1 == k) = false := by
          rw [beq_eq_false_iff_ne]
          exact hk
        rw [hbeq] at hcount
        simpa using hcount

/-- C2: loading succeeds exactly on valid weight mappings — the nine
recognized keys each present once, nothing else, non-negative weights, sum
within 1e-6 of 1 — and the accepted configuration stores the given weights
unchanged (no renormalization); anything else is rejected with an error
before any scoring occurs. -/
theorem loadWeightConfig_spec (entries : List (String × ℚ)) :
    ((loadWeightConfig entries).isOk = true ↔ validWeightEntries entries) ∧
    (∀ w, loadWeightConfig entries = Except.ok w →
      ∀ k v, (k, v) ∈ entries → weightOf w k = some v) := by
  have hkeys : keysOkB entries = true ↔
      ((∀ k ∈ recognizedWeightKeys, (entries.map Prod.fst).count k = 1) ∧
        (∀ e ∈ entries, e.1 ∈ recognizedWeightKeys)) := by
    unfold keysOkB
    rw [Bool.and_eq_true, List.all_eq_true, List.all_eq_true]
    constructor
    · intro ⟨h1, h2⟩
      refine ⟨fun k hk => by simpa using h1 k hk, fun e he => ?_⟩
      have := h2 e he
      simpa [List.contains_iff_exists_mem_beq, beq_iff_eq] using this
    · intro ⟨h1, h2⟩
      refine ⟨fun k hk => by simpa using h1 k hk, fun e he => ?_⟩
      simpa [List.contains_iff_exists_mem_beq, beq_iff_eq] using h2 e he
  have hnn : (entries.all (fun e => decide (0 ≤ e.2)) = true) ↔
      (∀ e ∈ entries, 0 ≤ e.2) := by
    rw [List.all_eq_true]
    constructor
    · intro h e he; have := h e he; simpa using this
    · intro h e he; simpa using h e he
  constructor
  · unfold loadWeightConfig
    by_cases h1 : keysOkB entries = true
    · rw [h1]
      simp only [Bool.not_true, Bool.false_eq_true, if_false]
      by_cases h2 : entries.all (fun e => decide (0 ≤ e.2)) = true
      · rw [h2]
        simp only [Bool.not_true, Bool.false_eq_true, if_false]
        by_cases h3 : (decide (|((entries.map Prod.snd).sum) - 1| ≤ weightEps)) = true
        · rw [h3]
          simp only [Bool.not_true, Bool.false_eq_true, if_false, isOk_ok]
          constructor
          · intro _
            refine ⟨(hkeys.mp h1).1, ?_, by simpa using h3⟩
            intro e he
            exact ⟨(hkeys.mp h1).2 e he, hnn.mp h2 e he⟩
          · intro _; trivial
        · rw [Bool.not_eq_true] at h3
          rw [h3]
          simp only [Bool.not_false, if_true, isOk_error]
          constructor
          · intro hf; exact absurd hf (by simp)
          · intro hv
            exfalso
            rw [Bool.eq_false_iff] at h3
            apply h3
            simpa using hv.2.2
      · rw [Bool.not_eq_true] at h2
        rw [h2]
        simp only [Bool.not_false, if_true, isOk_error]
        constructor
        · intro hf; exact absurd hf (by simp)
        · intro hv
          exfalso
          rw [Bool.eq_false_iff] at h2
          exact h2 (hnn.mpr (fun e he => (hv.2.1 e he).2))
    · rw [Bool.not_eq_true] at h1
      rw [h1]
      simp only [Bool.not_false, if_true, isOk_error]
      constructor
      · intro hf; exact absurd hf (by simp)
      · intro hv
        exfalso
        rw [Bool.eq_false_iff] at h1
        exact h1 (hkeys.mpr ⟨hv.1, fun e he => (hv.2.1 e he).1⟩)
  · intro w hw k v hm
    unfold loadWeightConfig at hw
    by_cases h1 : keysOkB entries = true
    · rw [h1] at hw
      simp only [Bool.not_true, Bool.false_eq_true, if_false] at hw
      by_cases h2 : entries.all (fun e => decide (0 ≤ e.2)) = true
      · rw [h2] at hw
        simp only [Bool.not_true, Bool.false_eq_true, if_false] at hw
        by_cases h3 : (decide (|((entries.map Prod.snd).sum) - 1| ≤ weightEps)) = true
        · rw [h3] at hw
          simp only [Bool.not_true, Bool.false_eq_true, if_false, Except.ok.injEq] at hw
          have hkrec : k ∈ recognizedWeightKeys := (hkeys.mp h1).2 (k, v) hm
          have hcount : (entries.map Prod.fst).count k = 1 := (hkeys.mp h1).1 k hkrec
          have hassoc : assocS k entries = some v := assocS_of_count_one hcount hm
          have hget : getW k entries = v := by unfold getW; rw [hassoc]; rfl
          rw [← hw]
          rw [recognizedWeightKeys] at hkrec
          simp only [List.mem_cons, List.not_mem_nil, or_false] at hkrec
          rcases hkrec with h | h | h | h | h | h | h | h | h <;> subst h <;>
            simp [weightOf, hget]
        · rw [Bool.not_eq_true] at h3
          rw [h3] at hw
          simp at hw
      · rw [Bool.not_eq_true] at h2
        rw [h2] at hw
        simp at hw
    · rw [Bool.not_eq_true] at h1
      rw [h1] at hw
      simp at hw

/-- The documented weight table (street 5, streetType 18, area 35,
location 2, garden 15, rooms 5, bedrooms 5, balconyTerrace 11,
energyLabel 4 percent). -/
def documentedWeights : List (String × ℚ) :=
  [("street", 5/100), ("streetType", 18/100), ("area", 35/100),
   ("location", 2/100), ("garden", 15/100), ("rooms", 5/100),
   ("bedrooms", 5/100), ("balconyTerrace", 11/100), ("energyLabel", 4/100)]

/-- Witness for C2: the documented weight table loads successfully. -/
theorem loadWeightConfig_spec_witness :
    (loadWeightConfig documentedWeights).isOk = true := by
  apply (loadWeightConfig_spec documentedWeights).1.mpr
  refine ⟨by decide, ?_, ?_⟩
  · intro e he
    rw [documentedWeights] at he
    simp only [List.mem_cons, List.not_mem_nil, or_false] at he
    rcases he with h | h | h | h | h | h | h | h | h <;>
      (subst h; exact ⟨by decide, by norm_num⟩)
  · rw [documentedWeights, weightEps]
    norm_num

/-- Modelled from the spec: the three-valued boolean amenity domain. -/
inductive TriBool
  | yes
  | no
  | unknown
deriving DecidableEq

/-- Modelled from the spec: energy labels A (best) through G. -/
inductive EnergyLabel
  | A
  | B
  | C
  | D
  | E
  | F
  | G
deriving DecidableEq

/-- Ordinal position of an energy label, A = 0 through G = 6. -/
def EnergyLabel.ordinal : EnergyLabel → ℕ
  | .A => 0
  | .B => 1
  | .C => 2
  | .D => 3
  | .E => 4
  | .F => 5
  | .G => 6

/-- Modelled from the spec: street classification metadata from the external
street-attributes lookup (road class, width and speed categories). -/
structure StreetMeta where
  roadClass : String
  widthCategory : ℕ
  speedCategory : ℕ
deriving DecidableEq

/-- Modelled from the spec: the subject attributes the Similarity Scorer
reads. -/
structure SubjectProperty where
  streetTokens : List String
  streetMeta : Option StreetMeta
  areaM2 : ℚ
  rooms : ℕ
  bedrooms : ℕ
  garden : TriBool
  balcony : TriBool
  terrace : TriBool
  energyLabel : EnergyLabel
deriving DecidableEq

/-- Modelled from the spec: the candidate attributes the Similarity Scorer
reads; `adjacencyRank` is the neighbourhood adjacency rank of the candidate
relative to the subject, 0 meaning the same neighbourhood. -/
structure CandidateProperty where
  id : String
  streetTokens : List String
  streetMeta : Option StreetMeta
  areaM2 : ℚ
  price : ℚ
  adjacencyRank : ℕ
  rooms : ℕ
  bedrooms : ℕ
  garden : TriBool
  balcony : TriBool
  terrace : TriBool
  energyLabel : EnergyLabel
deriving DecidableEq

/-- Modelled from the spec: subscore 1, token-overlap string similarity of
the normalized street names (both sides empty counts as a perfect match). -/
def streetNameScore (s : SubjectProperty) (c : CandidateProperty) : ℚ :=
  let A := s.streetTokens.toFinset
  let B := c.streetTokens.toFinset
  if A ∪ B = ∅ then 1 else ((A ∩ B).card : ℚ) / ((A ∪ B).card : ℚ)

/-- Modelled from the spec: subscore 2, street-classification similarity,
neutral midpoint when either side lacks the external metadata. -/
def streetTypeScore (s : SubjectProperty) (c : CandidateProperty) : ℚ :=
  match s.streetMeta, c.streetMeta with
  | some ms, some mc =>
    (((if ms.roadClass = mc.roadClass then (1 : ℚ) else 0) +
      (if ms.widthCategory = mc.widthCategory then (1 : ℚ) else 0) +
      (if ms.speedCategory = mc.speedCategory then (1 : ℚ) else 0))) / 3
  | _, _ => 1 / 2

/-- The proportional area-difference cutoff (50 percent) beyond which the
area subscore floors at 0. -/
def areaCutoff : ℚ := 1 / 2

/-- Modelled from the spec: subscore 3, area proximity — linear decrease in
the proportional area difference, flooring at 0 from the cutoff on. -/
def areaScore (s : SubjectProperty) (c : CandidateProperty) : ℚ :=
  max 0 (1 - (|c.areaM2 - s.areaM2| / s.areaM2) / areaCutoff)

/-- Modelled from the spec: subscore 4, location proximity — decreasing in
the adjacency rank, same neighbourhood (rank 0) scoring 1. -/
def locationScore (c : CandidateProperty) : ℚ :=
  1 / ((c.adjacencyRank : ℚ) + 1)

/-- Modelled from the spec: the binary match rule with the neutral midpoint
for unknown. -/
def triMatchScore : TriBool → TriBool → ℚ
  | .yes, .yes => 1
  | .no, .no => 1
  | .yes, .no => 0
  | .no, .yes => 0
  | _, _ => 1 / 2

/-- Modelled from the spec: subscore 5, garden match. -/
def gardenScore (s : SubjectProperty) (c : CandidateProperty) : ℚ :=
  triMatchScore s.garden c.garden

/-- The saturating room-count difference (3 rooms). -/
def maxRoomDiff : ℚ := 3

/-- Modelled from the spec: subscore 6, room-count similarity. -/
def roomScore (s : SubjectProperty) (c : CandidateProperty) : ℚ :=
  max 0 (1 - |(c.rooms : ℚ) - (s.rooms : ℚ)| / maxRoomDiff)

/-- Modelled from the spec: subscore 7, bedroom-count similarity. -/
def bedroomScore (s : SubjectProperty) (c : CandidateProperty) : ℚ :=
  max 0 (1 - |(c.bedrooms : ℚ) - (s.bedrooms : ℚ)| / maxRoomDiff)

/-- Three-valued disjunction for the combined balcony-or-terrace flag. -/
def triOr : TriBool → TriBool → TriBool
  | .yes, _ => .yes
  | _, .yes => .yes
  | .no, .no => .no
  | _, _ => .unknown

/-- Modelled from the spec: subscore 8, balcony/terrace match on the
combined flag. -/
def balconyTerraceScore (s : SubjectProperty) (c : CandidateProperty) : ℚ :=
  triMatchScore (triOr s.balcony s.terrace) (triOr c.balcony c.terrace)

/-- Modelled from the spec: subscore 9, energy-label similarity — linear
decrease in the ordinal distance, saturating at the full label range. -/
def energyScore (s : SubjectProperty) (c : CandidateProperty) : ℚ :=
  max 0 (1 - |(c.energyLabel.ordinal : ℚ) - (s.energyLabel.ordinal : ℚ)| / 6)

/-- The nine subscores of one subject/candidate pair — exactly one value per
named scoring component. -/
structure Subscores where
  street : ℚ
  streetType : ℚ
  area : ℚ
  location : ℚ
  garden : ℚ
  rooms : ℚ
  bedrooms : ℚ
  balconyTerrace : ℚ
  energyLabel : ℚ
deriving DecidableEq

/-- Modelled from the spec: the Similarity Scorer computes the nine named
subscores of one pair. -/
def computeSubscores (s : SubjectProperty) (c : CandidateProperty) : Subscores :=
  { street := streetNameScore s c,
    streetType := streetTypeScore s c,
    area := areaScore s c,
    location := locationScore c,
    garden := gardenScore s c,
    rooms := roomScore s c,
    bedrooms := bedroomScore s c,
    balconyTerrace := balconyTerraceScore s c,
    energyLabel := energyScore s c }

/-- Modelled from the spec: the composite score is the weighted sum of the
nine subscores under the supplied configuration. -/
def compositeScore (w : WeightConfiguration) (ss : Subscores) : ℚ :=
  w.wStreet * ss.street + w.wStreetType * ss.streetType + w.wArea * ss.area +
  w.wLocation * ss.location + w.wGarden * ss.garden + w.wRooms * ss.rooms +
  w.wBedrooms * ss.bedrooms + w.wBalconyTerrace * ss.balconyTerrace +
  w.wEnergyLabel * ss.energyLabel

/-- A scored pair: the nine subscores and the composite. -/
structure ScoredPair where
  subscores : Subscores
  composite : ℚ
deriving DecidableEq

/-- Modelled from the spec: `score(subject, candidate, weights)`. -/
def scorePair (s : SubjectProperty) (c : CandidateProperty)
    (w : WeightConfiguration) : ScoredPair :=
  { subscores := computeSubscores s c,
    composite := compositeScore w (computeSubscores s c) }

/-- All nine weights non-negative. -/
def WeightConfiguration.nonneg (w : WeightConfiguration) : Prop :=
  0 ≤ w.wStreet ∧ 0 ≤ w.wStreetType ∧ 0 ≤ w.wArea ∧ 0 ≤ w.wLocation ∧
  0 ≤ w.wGarden ∧ 0 ≤ w.wRooms ∧ 0 ≤ w.wBedrooms ∧ 0 ≤ w.wBalconyTerrace ∧
  0 ≤ w.wEnergyLabel

/-- The sum of the nine weights. -/
def WeightConfiguration.total (w : WeightConfiguration) : ℚ :=
  w.wStreet + w.wStreetType + w.wArea + w.wLocation + w.wGarden + w.wRooms +
  w.wBedrooms + w.wBalconyTerrace + w.wEnergyLabel

/-- Membership in the unit interval. -/
def inUnit (x : ℚ) : Prop := 0 ≤ x ∧ x ≤ 1

theorem inUnit_max0 {x : ℚ} (hx : x ≤ 1) : inUnit (max 0 x) :=
  ⟨le_max_left _ _, max_le (by norm_num) hx⟩

theorem streetNameScore_inUnit (s : SubjectProperty) (c : CandidateProperty) :
    inUnit (streetNameScore s c) := by
  unfold streetNameScore
  by_cases h : s.streetTokens.toFinset ∪ c.streetTokens.toFinset = ∅
  · rw [if_pos h]
    exact ⟨by norm_num, le_refl 1⟩
  · rw [if_neg h]
    have hpos : 0 < ((s.streetTokens.toFinset ∪ c.streetTokens.toFinset).card : ℚ) := by
      have := Finset.card_pos.mpr (Finset.nonempty_iff_ne_empty.mpr h)
      exact_mod_cast this
    constructor
    · exact div_nonneg (by exact_mod_cast Nat.zero_le _) (le_of_lt hpos)
    · rw [div_le_one hpos]
      exact_mod_cast Finset.card_le_card Finset.inter_subset_union

theorem streetTypeScore_inUnit (s : SubjectProperty) (c : CandidateProperty) :
    inUnit (streetTypeScore s c) := by
  unfold streetTypeScore
  rcases s.streetMeta with _ | ms <;> rcases c.streetMeta with _ | mc
  · exact ⟨by norm_num, by norm_num⟩
  · exact ⟨by norm_num, by norm_num⟩
  · exact ⟨by norm_num, by norm_num⟩
  · constructor
    · simp only []
      split_ifs <;> norm_num
    · simp only []
      split_ifs <;> norm_num

theorem areaScore_inUnit {s : SubjectProperty} (c : CandidateProperty)
    (harea : 0 < s.areaM2) : inUnit (areaScore s c) := by
  apply inUnit_max0
  have h1 : 0 ≤ |c.areaM2 - s.areaM2| / s.areaM2 :=
    div_nonneg (abs_nonneg _) (le_of_lt harea)
  have h2 : 0 ≤ (|c.areaM2 - s.areaM2| / s.areaM2) / areaCutoff :=
    div_nonneg h1 (by rw [areaCutoff]; norm_num)
  linarith

theorem locationScore_inUnit (c : CandidateProperty) : inUnit (locationScore c) := by
  unfold locationScore
  have hpos : 0 < ((c.adjacencyRank : ℚ) + 1) := by positivity
  constructor
  · exact le_of_lt (div_pos one_pos hpos)
  · rw [div_le_one hpos]
    have : (0 : ℚ) ≤ (c.adjacencyRank : ℚ) := Nat.cast_nonneg _
    linarith

theorem triMatchScore_inUnit (a b : TriBool) : inUnit (triMatchScore a b) := by
  cases a <;> cases b <;> constructor <;> norm_num [triMatchScore]

theorem roomScore_inUnit (s : SubjectProperty) (c : CandidateProperty) :
    inUnit (roomScore s c) := by
  apply inUnit_max0
  have h1 : 0 ≤ |(c.rooms : ℚ) - (s.rooms : ℚ)| / maxRoomDiff :=
    div_nonneg (abs_nonneg _) (by rw [maxRoomDiff]; norm_num)
  linarith

theorem bedroomScore_inUnit (s : SubjectProperty) (c : CandidateProperty) :
    inUnit (bedroomScore s c) := by
  apply inUnit_max0
  have h1 : 0 ≤ |(c.bedrooms : ℚ) - (s.bedrooms : ℚ)| / maxRoomDiff :=
    div_nonneg (abs_nonneg _) (by rw [maxRoomDiff]; norm_num)
  linarith

theorem energyScore_inUnit (s : SubjectProperty) (c : CandidateProperty) :
    inUnit (energyScore s c) := by
  apply inUnit_max0
  have h1 : 0 ≤ |(c.energyLabel.ordinal : ℚ) - (s.energyLabel.ordinal : ℚ)| / 6 :=
    div_nonneg (abs_nonneg _) (by norm_num)
  linarith

theorem compositeScore_inUnit {w : WeightConfiguration} {ss : Subscores}
    (hw : w.nonneg) (hsum : w.total = 1)
    (h1 : inUnit ss.street) (h2 : inUnit ss.streetType) (h3 : inUnit ss.area)
    (h4 : inUnit ss.location) (h5 : inUnit ss.garden) (h6 : inUnit ss.rooms)
    (h7 : inUnit ss.bedrooms) (h8 : inUnit ss.balconyTerrace)
    (h9 : inUnit ss.energyLabel) : inUnit (compositeScore w ss) := by
  obtain ⟨hw1, hw2, hw3, hw4, hw5, hw6, hw7, hw8, hw9⟩ := hw
  unfold WeightConfiguration.total at hsum
  unfold compositeScore
  constructor
  · have m1 := mul_nonneg hw1 h1.1
    have m2 := mul_nonneg hw2 h2.1
    have m3 := mul_nonneg hw3 h3.1
    have m4 := mul_nonneg hw4 h4.1
    have m5 := mul_nonneg hw5 h5.1
    have m6 := mul_nonneg hw6 h6.1
    have m7 := mul_nonneg hw7 h7.1
    have m8 := mul_nonneg hw8 h8.1
    have m9 := mul_nonneg hw9 h9.1
    linarith
  · have m1 := mul_le_of_le_one_right hw1 h1.2
    have m2 := mul_le_of_le_one_right hw2 h2.2
    have m3 := mul_le_of_le_one_right hw3 h3.2
    have m4 := mul_le_of_le_one_right hw4 h4.2
    have m5 := mul_le_of_le_one_right hw5 h5.2
    have m6 := mul_le_of_le_one_right hw6 h6.2
    have m7 := mul_le_of_le_one_right hw7 h7.2
    have m8 := mul_le_of_le_one_right hw8 h8.2
    have m9 := mul_le_of_le_one_right hw9 h9.2
    linarith

/-- C1: scoring one subject/candidate pair yields exactly one subscore per
named component (the nine fields of `Subscores`), each in the unit interval,
and a composite score in the unit interval, for non-negative weights summing
to one and a subject with positive living area. -/
theorem scorePair_bounds (s : SubjectProperty) (c : CandidateProperty)
    (w : WeightConfiguration) (harea : 0 < s.areaM2) (hw : w.nonneg)
    (hsum : w.total = 1) :
    inUnit (scorePair s c w).subscores.street ∧
    inUnit (scorePair s c w).subscores.streetType ∧
    inUnit (scorePair s c w).subscores.area ∧
    inUnit (scorePair s c w).subscores.location ∧
    inUnit (scorePair s c w).subscores.garden ∧
    inUnit (scorePair s c w).subscores.rooms ∧
    inUnit (scorePair s c w).subscores.bedrooms ∧
    inUnit (scorePair s c w).subscores.balconyTerrace ∧
    inUnit (scorePair s c w).subscores.energyLabel ∧
    inUnit (scorePair s c w).composite := by
  refine ⟨streetNameScore_inUnit s c, streetTypeScore_inUnit s c,
    areaScore_inUnit c harea, locationScore_inUnit c,
    triMatchScore_inUnit _ _, roomScore_inUnit s c, bedroomScore_inUnit s c,
    triMatchScore_inUnit _ _, energyScore_inUnit s c, ?_⟩
  exact compositeScore_inUnit hw hsum (streetNameScore_inUnit s c)
    (streetTypeScore_inUnit s c) (areaScore_inUnit c harea)
    (locationScore_inUnit c) (triMatchScore_inUnit _ _) (roomScore_inUnit s c)
    (bedroomScore_inUnit s c) (triMatchScore_inUnit _ _) (energyScore_inUnit s c)

/-- The documented weight table as a configuration value. -/
def documentedConfig : WeightConfiguration :=
  { wStreet := 5/100, wStreetType := 18/100, wArea := 35/100,
    wLocation := 2/100, wGarden := 15/100, wRooms := 5/100,
    wBedrooms := 5/100, wBalconyTerrace := 11/100, wEnergyLabel := 4/100 }

/-- Witness for C1: a concrete pair under the documented weights. -/
theorem scorePair_bounds_witness :
    inUnit (scorePair
      { streetTokens := ["eerste", "laurierdwarsstraat"], streetMeta := none,
        areaM2 := 80, rooms := 3, bedrooms := 2, garden := TriBool.no,
        balcony := TriBool.no, terrace := TriBool.no,
        energyLabel := EnergyLabel.C }
      { id := "cand1", streetTokens := ["laurierstraat"], streetMeta := none,
        areaM2 := 95, price := 500000, adjacencyRank := 1, rooms := 4,
        bedrooms := 2, garden := TriBool.yes, balcony := TriBool.unknown,
        terrace := TriBool.no, energyLabel := EnergyLabel.A }
      documentedConfig).composite := by
  have h := scorePair_bounds
    { streetTokens := ["eerste", "laurierdwarsstraat"], streetMeta := none,
      areaM2 := 80, rooms := 3, bedrooms := 2, garden := TriBool.no,
      balcony := TriBool.no, terrace := TriBool.no,
      energyLabel := EnergyLabel.C }
    { id := "cand1", streetTokens := ["laurierstraat"], streetMeta := none,
      areaM2 := 95, price := 500000, adjacencyRank := 1, rooms := 4,
      bedrooms := 2, garden := TriBool.yes, balcony := TriBool.unknown,
      terrace := TriBool.no, energyLabel := EnergyLabel.A }
    documentedConfig (by norm_num) ?_ ?_
  · exact h.2.2.2.2.2.2.2.2.2
  · refine ⟨?_, ?_, ?_, ?_, ?_, ?_, ?_, ?_, ?_⟩ <;> norm_num [documentedConfig]
  · rw [WeightConfiguration.total]
    norm_num [documentedConfig]

/-- Modelled from the spec: a selected comparable as the Valuation Aggregator
reads it — identifier, sale price, floor area. -/
structure SelectedComparable where
  id : String
  price : ℚ
  areaM2 : ℚ
deriving DecidableEq

/-- Modelled from the spec: the run-failure reasons the aggregator can
raise. -/
inductive ValuationError
  | insufficientData
deriving DecidableEq

/-- Modelled from the spec: the aggregated result — advisory value with a
low/high band and the low-confidence flag. -/
structure ValuationOutcome where
  value : ℚ
  low : ℚ
  high : ℚ
  lowConfidence : Bool
deriving DecidableEq

/-- The top-K subset size used by the default aggregation method. -/
def topK : ℕ := 10

/-- The fixed percentage band around the advisory value. -/
def bandFraction : ℚ := 1 / 10

/-- Modelled from the spec: `estimate(selected, subject, method)` for the
default mean method — mean price-per-area of the top K selected comparables
times the subject area, a fixed percentage band, the low-confidence flag on
fewer than two survivors, and an explicit insufficient-data failure on an
empty selection (never a zero-valued estimate). -/
def estimate (selected : List SelectedComparable) (subjectArea : ℚ) :
    Except ValuationError ValuationOutcome :=
  if selected.isEmpty then
    Except.error ValuationError.insufficientData
  else
    let k := min topK selected.length
    let ppm2s := (selected.take k).map (fun c => c.price / c.areaM2)
    let meanPpm2 := ppm2s.sum / (k : ℚ)
    let value := meanPpm2 * subjectArea
    Except.ok
      { value := value,
        low := value * (1 - bandFraction),
        high := value * (1 + bandFraction),
        lowConfidence := decide (selected.length < 2) }

/-- C4: the aggregator fails explicitly with insufficient-data on an empty
selection, returns a result flagged low-confidence (rather than failing) on
a single selected candidate, succeeds only on nonempty selections, and the
advisory value is positive whenever the selected prices, areas and the
subject area are — never a zero-valued or fabricated estimate. -/
theorem estimate_spec (selected : List SelectedComparable) (subjectArea : ℚ) :
    (selected = [] → estimate selected subjectArea =
      Except.error ValuationError.insufficientData) ∧
    (selected.length = 1 → ∃ r, estimate selected subjectArea = Except.ok r ∧
      r.lowConfidence = true) ∧
    (∀ r, estimate selected subjectArea = Except.ok r → selected ≠ []) ∧
    (∀ r, estimate selected subjectArea = Except.ok r → 0 < subjectArea →
      (∀ cand ∈ selected, 0 < cand.price ∧ 0 < cand.areaM2) → 0 < r.value) := by
  refine ⟨?_, ?_, ?_, ?_⟩
  · intro h
    subst h
    rfl
  · intro hlen
    have hne : selected.isEmpty = false := by
      cases selected with
      | nil => simp at hlen
      | cons a t => rfl
    unfold estimate
    rw [hne]
    simp only [Bool.false_eq_true, if_false]
    refine ⟨_, rfl, ?_⟩
    simp [hlen]
  · intro r hr
    intro hnil
    subst hnil
    unfold estimate at hr
    simp at hr
  · intro r hr hpos hall
    have hne : ¬selected.isEmpty = true := by
      intro hempty
      rw [List.isEmpty_iff] at hempty
      subst hempty
      unfold estimate at hr
      simp at hr
    unfold estimate at hr
    rw [Bool.not_eq_true] at hne
    rw [hne] at hr
    simp only [Bool.false_eq_true, if_false, Except.ok.injEq] at hr
    have hselne : selected ≠ [] := by
      intro hc
      subst hc
      simp at hne
    have hlen1 : 1 ≤ selected.length := by
      cases selected with
      | nil => exact absurd rfl hselne
      | cons a t => simp
    have hk1 : 1 ≤ min topK selected.length := by
      unfold topK
      omega
    have htake : (selected.take (min topK selected.length)) ≠ [] := by
      intro hc
      have hlt := congrArg List.length hc
      rw [List.length_take] at hlt
      simp only [List.length_nil] at hlt
      unfold topK at hlt hk1
      omega
    have hsumpos : 0 < ((selected.take (min topK selected.length)).map
        (fun c => c.price / c.areaM2)).sum := by
      apply List.sum_pos
      · intro x hx
        rw [List.mem_map] at hx
        obtain ⟨cand, hcand, hcx⟩ := hx
        have hmem : cand ∈ selected := (List.take_sublist _ _).subset hcand
        rw [← hcx]
        exact div_pos (hall cand hmem).1 (hall cand hmem).2
      · intro hc
        rw [List.map_eq_nil_iff] at hc
        exact htake hc
    have hkpos : (0 : ℚ) < ((min topK selected.length : ℕ) : ℚ) := by
      exact_mod_cast hk1
    have hvalue : 0 < (((selected.take (min topK selected.length)).map
        (fun c => c.price / c.areaM2)).sum / ((min topK selected.length : ℕ) : ℚ)) *
          subjectArea :=
      mul_pos (div_pos hsumpos hkpos) hpos
    rw [← hr]
    exact hvalue

/-- Witness for C4: the empty selection and a singleton selection. -/
theorem estimate_spec_witness :
    estimate [] 80 = Except.error ValuationError.insufficientData ∧
    (∃ r, estimate [{ id := "cand1", price := 400000, areaM2 := 100 }] 80 =
      Except.ok r ∧ r.lowConfidence = true) :=
  ⟨(estimate_spec [] 80).1 rfl,
    (estimate_spec [{ id := "cand1", price := 400000, areaM2 := 100 }] 80).2.1 rfl⟩
